import Mathlib

/-!
Verification development for the tag-indexing core of a static blog site.

The code under scrutiny lives in `src/pages/tag/[tag].astro`
(`getStaticPaths`: tag enumeration at lines 48-52, per-tag filtering at
lines 59-80), `src/utils/sort-by-date.ts` (`byDate`), and the RSS route
(`GET`, filtering at lines 10-17).

Content records are Astro collection entries.  Dates are compared via
`Date.prototype.getTime()`, so `publishedAt` is embedded as the epoch
timestamp (a natural number).  `import.meta.env.PROD` is an external
build-mode flag, embedded as an explicit `prod : Bool` parameter.

Tag matching in the source is `blogTag.match(new RegExp(tag, "i"))`: the
query tag is compiled as an ECMAScript regular-expression pattern with the
case-insensitive flag and tested, unanchored, against each record tag.
We embed the fragment of ECMAScript pattern syntax reachable here:
literal characters, `.`, escapes (`\d \D \w \W \s \S`, control escapes,
identity escapes of punctuation), the quantifiers `* + ?` with their lazy
variants, grouping `( )` and alternation `|`.  Constructs outside the
fragment (character classes, anchors, braces, lookarounds, named escapes)
make compilation fail, as does a quantifier with nothing to repeat
(ECMAScript raises `SyntaxError: nothing to repeat` there, e.g. on the
pattern `c++`).  `RegExp` construction happens inside the `.some`
callback, so a `SyntaxError` escapes `getStaticPaths` exactly when some
mode-kept record has a non-empty tag list; the embedding returns `none`
in that case.  Case-insensitivity is embedded by lower-casing both sides
of a literal-character comparison (the records' tags are ASCII).
-/

/-- Character classes appearing in the embedded escape forms. -/
inductive CharCls where
  | digit
  | word
  | space
deriving DecidableEq, Repr

/-- Membership test of the ECMAScript character classes (ASCII fragment). -/
def clsMatch : CharCls → Char → Bool
  | CharCls.digit, c => c.isDigit
  | CharCls.word, c => c.isAlphanum || c == '_'
  | CharCls.space, c =>
      c == ' ' || c == '\t' || c == '\n' || c == '\r' ||
      c == Char.ofNat 11 || c == Char.ofNat 12

/-- Abstract syntax of the embedded regular-expression fragment. -/
inductive RNode where
  | fail
  | eps
  | lit (c : Char)
  | anyChar
  | cls (neg : Bool) (k : CharCls)
  | seq (a b : RNode)
  | alt (a b : RNode)
  | star (a : RNode)
deriving DecidableEq, Repr

/-- Does the expression accept the empty string? -/
def nullable : RNode → Bool
  | RNode.fail => false
  | RNode.eps => true
  | RNode.lit _ => false
  | RNode.anyChar => false
  | RNode.cls _ _ => false
  | RNode.seq a b => nullable a && nullable b
  | RNode.alt a b => nullable a || nullable b
  | RNode.star _ => true

/-- Brzozowski derivative of the expression by one input character.
Literal characters compare case-insensitively, embedding the `i` flag;
`.` excludes the ECMAScript line terminators. -/
def rderiv : RNode → Char → RNode
  | RNode.fail, _ => RNode.fail
  | RNode.eps, _ => RNode.fail
  | RNode.lit c, d => if c.toLower == d.toLower then RNode.eps else RNode.fail
  | RNode.anyChar, d =>
      if d == '\n' || d == '\r' || d == Char.ofNat 0x2028 || d == Char.ofNat 0x2029 then
        RNode.fail
      else RNode.eps
  | RNode.cls neg k, d => if clsMatch k d != neg then RNode.eps else RNode.fail
  | RNode.seq a b, d =>
      if nullable a then RNode.alt (RNode.seq (rderiv a d) b) (rderiv b d)
      else RNode.seq (rderiv a d) b
  | RNode.alt a b, d => RNode.alt (rderiv a d) (rderiv b d)
  | RNode.star a, d => RNode.seq (rderiv a d) (RNode.star a)

/-- Does the expression match some prefix of the character list? -/
def matchHere : RNode → List Char → Bool
  | r, [] => nullable r
  | r, c :: cs => nullable r || matchHere (rderiv r c) cs

/-- Unanchored test of a compiled expression against a string: the
truthiness of `s.match(re)`, which holds exactly when the expression
matches somewhere inside `s`. -/
def rtest (re : RNode) (s : String) : Bool :=
  s.data.tails.any (fun t => matchHere re t)

/-- Characters the embedded pattern parser treats as plain literals:
everything except the ECMAScript syntax characters (and braces and
brackets, whose constructs are outside the embedded fragment). -/
def isLitChar (c : Char) : Bool :=
  !(c == '\\' || c == '.' || c == '*' || c == '+' || c == '?' ||
    c == '(' || c == ')' || c == '[' || c == ']' ||
    c == '{' || c == '}' || c == '|' || c == '^' || c == '$')

/-- Meaning of a backslash escape.  Class escapes and control escapes of
the fragment are embedded; identity escapes of punctuation are literals;
alphanumeric escapes outside the fragment are rejected. -/
def parseEscape (e : Char) : Option RNode :=
  if e == 'd' then some (RNode.cls false CharCls.digit)
  else if e == 'D' then some (RNode.cls true CharCls.digit)
  else if e == 'w' then some (RNode.cls false CharCls.word)
  else if e == 'W' then some (RNode.cls true CharCls.word)
  else if e == 's' then some (RNode.cls false CharCls.space)
  else if e == 'S' then some (RNode.cls true CharCls.space)
  else if e == 'n' then some (RNode.lit '\n')
  else if e == 't' then some (RNode.lit '\t')
  else if e == 'r' then some (RNode.lit '\r')
  else if e == 'f' then some (RNode.lit (Char.ofNat 12))
  else if e == 'v' then some (RNode.lit (Char.ofNat 11))
  else if e == '0' then some (RNode.lit (Char.ofNat 0))
  else if e.isAlphanum then none
  else some (RNode.lit e)

/-- Drop the lazy marker `?` after a quantifier; laziness does not change
whether a match exists. -/
def dropLazy (cs : List Char) : List Char :=
  match cs with
  | c :: rest => if c == '?' then rest else c :: rest
  | [] => []

/-- Apply a quantifier following an atom, when one is present.  `a+` is
`a` followed by `a*`; `a?` is `a` or the empty string. -/
def applyQuant (a : RNode) (cs : List Char) : RNode × List Char :=
  match cs with
  | [] => (a, [])
  | c :: rest =>
      if c == '*' then (RNode.star a, dropLazy rest)
      else if c == '+' then (RNode.seq a (RNode.star a), dropLazy rest)
      else if c == '?' then (RNode.alt a RNode.eps, dropLazy rest)
      else (a, c :: rest)

/-- Fold a parsed sequence of atoms into one expression. -/
def foldSeq (as : List RNode) : RNode :=
  as.foldr RNode.seq RNode.eps

mutual

/-- Parse a disjunction: alternatives separated by `|`. -/
def parseDisj : Nat → List Char → Option (RNode × List Char)
  | 0, _ => none
  | f + 1, cs =>
      match parseSeq f cs with
      | none => none
      | some (as, rest) =>
          match rest with
          | [] => some (foldSeq as, [])
          | c :: rest2 =>
              if c == '|' then
                match parseDisj f rest2 with
                | none => none
                | some (r2, rest3) => some (RNode.alt (foldSeq as) r2, rest3)
              else some (foldSeq as, c :: rest2)

/-- Parse a sequence of quantified atoms, stopping at `|`, `)` or the end.
A quantifier character in atom position is the ECMAScript "nothing to
repeat" error (so `c++`, whose second `+` has no atom, fails). -/
def parseSeq : Nat → List Char → Option (List RNode × List Char)
  | 0, _ => none
  | _ + 1, [] => some ([], [])
  | f + 1, c :: cs =>
      if c == '|' || c == ')' then some ([], c :: cs)
      else
        match parseAtom f (c :: cs) with
        | none => none
        | some (a, rest) =>
            let q := applyQuant a rest
            match parseSeq f q.2 with
            | none => none
            | some (as, rest2) => some (q.1 :: as, rest2)

/-- Parse one atom: an escape, `.`, a group, or a literal character.
Groups with modifiers `(?...)` and the constructs outside the fragment
are rejected. -/
def parseAtom : Nat → List Char → Option (RNode × List Char)
  | _, [] => none
  | f, c :: rest =>
      if c == '\\' then
        match rest with
        | [] => none
        | e :: rest2 => (parseEscape e).map (fun r => (r, rest2))
      else if c == '.' then some (RNode.anyChar, rest)
      else if c == '(' then
        if rest.head? == some '?' then none
        else
          match f with
          | 0 => none
          | f2 + 1 =>
              match parseDisj f2 rest with
              | none => none
              | some (r, rest2) =>
                  match rest2 with
                  | ')' :: rest3 => some (r, rest3)
                  | _ => none
      else if isLitChar c then some (RNode.lit c, rest)
      else none

end

/-- Compilation of a pattern string, the embedding of
`new RegExp(tag, "i")`: `none` is the `SyntaxError` outcome. -/
def compile (pat : String) : Option RNode :=
  match parseDisj (2 * pat.data.length + 2) pat.data with
  | some (r, []) => some r
  | _ => none

/-- Expression matching a fixed list of literal characters in order:
what compilation produces on a pattern of plain literal characters. -/
def compileLit (cs : List Char) : RNode :=
  (cs.map RNode.lit).foldr RNode.seq RNode.eps

/-- Case-insensitive comparison, character by character, of a pattern
list against the head of a text list. -/
def ciStarts : List Char → List Char → Bool
  | [], _ => true
  | _ :: _, [] => false
  | c :: cs, d :: ds => (c.toLower == d.toLower) && ciStarts cs ds

/-- Case-insensitive substring containment: `pat` occurs inside `hay`
up to character case. -/
def containsCI (hay pat : String) : Bool :=
  hay.data.tails.any (fun t => ciStarts pat.data t)

/-- Frontmatter of one content record, per the collection schema:
`publishedAt` is the `getTime()` epoch value of the date. -/
structure BlogData where
  title : String
  description : String
  publishedAt : Nat
  tags : List String
  draft : Bool
deriving DecidableEq, Repr

/-- One content record of the `blogs` collection: a slug and its data. -/
structure Blog where
  slug : String
  data : BlogData
deriving DecidableEq, Repr

/-- Comparator of `sort-by-date.ts`:
`b.data.publishedAt.getTime() - a.data.publishedAt.getTime()`. -/
def byDate (a b : Blog) : Int :=
  (b.data.publishedAt : Int) - (a.data.publishedAt : Int)

/-- Order induced by the comparator: `a` sorts no later than `b` exactly
when `byDate a b` is nonpositive. -/
def byDateOrder (a b : Blog) : Prop :=
  byDate a b ≤ 0

instance : DecidableRel byDateOrder :=
  fun a b => inferInstanceAs (Decidable (byDate a b ≤ 0))

instance : IsTotal Blog byDateOrder :=
  ⟨fun a b => by
    unfold byDateOrder byDate
    omega⟩

instance : IsTrans Blog byDateOrder :=
  ⟨fun a b c => by
    unfold byDateOrder byDate
    omega⟩

/-- Embedding of `blogsByTag.sort(byDate)`: `Array.prototype.sort` with a
consistent comparator is required (ES2019 and later) to produce the
stable sorted permutation, which is what insertion sort computes. -/
def sortByDate (l : List Blog) : List Blog :=
  l.insertionSort byDateOrder

/-- Embedding of `String.prototype.toLowerCase` on the ASCII tag
strings: lower-case every character. -/
def lowerStr (s : String) : String :=
  String.mk (s.data.map Char.toLower)

/-- Tag enumeration of `getStaticPaths` (lines 48-52): every record's
tags, lower-cased, inserted into a `Set` in iteration order.  The
embedding keeps the `Set`'s insertion order as a duplicate-free list. -/
def insertTag (acc : List String) (t : String) : List String :=
  if t ∈ acc then acc else acc ++ [t]

/-- Set of distinct lower-cased tags across all records, drafts
included, in first-insertion order. -/
def enumerateTags (blogs : List Blog) : List String :=
  blogs.foldl (fun acc b => b.data.tags.foldl (fun acc2 t => insertTag acc2 (lowerStr t)) acc) []

/-- Record-skipping guard of the per-tag loop (line 63): a record is
kept for consideration unless it is a draft and the build is
production. -/
def keepInMode (prod : Bool) (b : Blog) : Bool :=
  !(b.data.draft && prod)

/-- Tag test of the per-tag loop (lines 65-67): some record tag matches
the compiled query expression. -/
def blogMatches (re : RNode) (b : Blog) : Bool :=
  b.data.tags.any (fun t => rtest re t)

/-- Per-tag listing of `getStaticPaths` (lines 59-80): skip drafts in
production, keep records with a matching tag, then sort with `byDate`
(`Array.prototype.sort` is stable and sorts by the comparator).  `none`
is the `SyntaxError` outcome of an invalid pattern, which fires at the
first kept record with a non-empty tag list. -/
def recordsForTag (prod : Bool) (blogs : List Blog) (tag : String) : Option (List Blog) :=
  match compile tag with
  | some re =>
      some (sortByDate (blogs.filter (fun b => keepInMode prod b && blogMatches re b)))
  | none =>
      if blogs.any (fun b => keepInMode prod b && !b.data.tags.isEmpty) then none
      else some []

/-- One item of the syndication feed. -/
structure RssItem where
  title : String
  link : String
  pubDate : Nat
  description : String
deriving DecidableEq, Repr

/-- Item built from one record by the RSS route (lines 12-17):
`context.url.origin` is the external origin parameter. -/
def toRssItem (origin : String) (b : Blog) : RssItem :=
  { title := b.data.title
    link := origin ++ "/blog/" ++ b.slug
    pubDate := b.data.publishedAt
    description := b.data.description }

/-- Item list handed to the feed generator by the RSS route (lines
10-17): the non-draft records, in collection order, mapped to items.
No sort is applied there. -/
def feedItems (origin : String) (blogs : List Blog) : List RssItem :=
  (blogs.filter (fun b => !b.data.draft)).map (toRssItem origin)

/-- Record A of the spec scenario: tag `Angular`, published 2023-01-01,
not a draft. -/
def blogA : Blog :=
  { slug := "a"
    data := { title := "A", description := "post A", publishedAt := 1672531200000
              tags := ["Angular"], draft := false } }

/-- Record B of the spec scenario: tags `angular` and `React`, published
2024-01-01, not a draft. -/
def blogB : Blog :=
  { slug := "b"
    data := { title := "B", description := "post B", publishedAt := 1704067200000
              tags := ["angular", "React"], draft := false } }

/-- Record C of the spec scenario: tag `Angular`, published 2022-01-01,
a draft. -/
def blogC : Blog :=
  { slug := "c"
    data := { title := "C", description := "post C", publishedAt := 1640995200000
              tags := ["Angular"], draft := true } }

/-- Record sequence of the spec scenario. -/
def scenarioBlogs : List Blog :=
  [blogA, blogB, blogC]

/-- Non-draft record one of whose tags contains the two-character query
pattern backslash-d literally. -/
def blogSlashD : Blog :=
  { slug := "slashd"
    data := { title := "SlashD", description := "slash d", publishedAt := 1000
              tags := ["a\\dz"], draft := false } }

/-- Non-draft record tagged `c++`. -/
def blogCpp : Blog :=
  { slug := "cpp"
    data := { title := "Cpp", description := "c plus plus", publishedAt := 1000
              tags := ["c++"], draft := false } }

/-- Draft record that is the only carrier of the tag `Draftish`. -/
def blogDraftOnly : Blog :=
  { slug := "draftish"
    data := { title := "Draftish", description := "draft only", publishedAt := 1000
              tags := ["Draftish"], draft := true } }

/-- Non-draft record published earlier, listed first in the collection. -/
def blogOld : Blog :=
  { slug := "old"
    data := { title := "Old", description := "older post", publishedAt := 100
              tags := ["Misc"], draft := false } }

/-- Non-draft record published later, listed second in the collection. -/
def blogNew : Blog :=
  { slug := "new"
    data := { title := "New", description := "newer post", publishedAt := 200
              tags := ["Misc"], draft := false } }

theorem matchHere_fail (t : List Char) : matchHere RNode.fail t = false := by
  induction t with
  | nil => rfl
  | cons c cs ih => simp [matchHere, rderiv, nullable, ih]

theorem matchHere_eps (t : List Char) : matchHere RNode.eps t = true := by
  cases t <;> simp [matchHere, nullable]

theorem matchHere_seq_fail (r : RNode) (t : List Char) :
    matchHere (RNode.seq RNode.fail r) t = false := by
  induction t with
  | nil => simp [matchHere, nullable]
  | cons c cs ih => simp [matchHere, rderiv, nullable, ih]

theorem matchHere_alt (a b : RNode) (t : List Char) :
    matchHere (RNode.alt a b) t = (matchHere a t || matchHere b t) := by
  induction t generalizing a b with
  | nil => simp [matchHere, nullable]
  | cons c cs ih =>
      simp only [matchHere, rderiv, nullable, ih]
      cases nullable a <;> cases nullable b <;>
        simp [Bool.or_assoc, Bool.or_comm, Bool.or_left_comm]

theorem matchHere_seq_eps (r : RNode) (t : List Char) :
    matchHere (RNode.seq RNode.eps r) t = matchHere r t := by
  cases t with
  | nil => simp [matchHere, nullable]
  | cons c cs =>
      simp [matchHere, rderiv, nullable, matchHere_alt, matchHere_seq_fail]

theorem matchHere_compileLit_cons (c : Char) (cs : List Char) (d : Char) (t : List Char) :
    matchHere (compileLit (c :: cs)) (d :: t) =
      if c.toLower == d.toLower then matchHere (compileLit cs) t else false := by
  show matchHere (RNode.seq (RNode.lit c) (compileLit cs)) (d :: t) = _
  cases h : c.toLower == d.toLower with
  | true =>
      simp [matchHere, rderiv, nullable, h, matchHere_seq_eps]
  | false =>
      simp [matchHere, rderiv, nullable, h, matchHere_seq_fail]

theorem ciStarts_matchHere (cs : List Char) :
    ∀ t : List Char, ciStarts cs t = true → matchHere (compileLit cs) t = true := by
  induction cs with
  | nil =>
      intro t _
      exact matchHere_eps t
  | cons c cs ih =>
      intro t h
      cases t with
      | nil => exact absurd h (by simp [ciStarts])
      | cons d ds =>
          simp only [ciStarts, Bool.and_eq_true] at h
          rw [matchHere_compileLit_cons, h.1]
          exact ih ds h.2

theorem containsCI_rtest (hay pat : String) (h : containsCI hay pat = true) :
    rtest (compileLit pat.data) hay = true := by
  unfold containsCI at h
  unfold rtest
  simp only [List.any_eq_true] at h ⊢
  obtain ⟨t, ht, hs⟩ := h
  exact ⟨t, ht, ciStarts_matchHere _ _ hs⟩

theorem isLitChar_spec (c : Char) (h : isLitChar c = true) :
    c ≠ '\\' ∧ c ≠ '.' ∧ c ≠ '*' ∧ c ≠ '+' ∧ c ≠ '?' ∧ c ≠ '(' ∧ c ≠ ')' ∧
      c ≠ '[' ∧ c ≠ ']' ∧ c ≠ '{' ∧ c ≠ '}' ∧ c ≠ '|' ∧ c ≠ '^' ∧ c ≠ '$' := by
  simp only [isLitChar, Bool.not_eq_true', Bool.or_eq_false_iff,
    beq_eq_false_iff_ne, ne_eq] at h
  tauto

theorem parseAtom_lit (f : Nat) (c : Char) (rest : List Char) (h : isLitChar c = true) :
    parseAtom f (c :: rest) = some (RNode.lit c, rest) := by
  obtain ⟨n1, n2, _, _, _, n6, _, _, _, _, _, _, _, _⟩ := isLitChar_spec c h
  unfold parseAtom
  simp [n1, n2, n6, h]

theorem applyQuant_lit (a : RNode) (cs : List Char)
    (h : ∀ d ∈ cs, isLitChar d = true) : applyQuant a cs = (a, cs) := by
  cases cs with
  | nil => rfl
  | cons d ds =>
      obtain ⟨_, _, n3, n4, n5, _, _, _, _, _, _, _, _, _⟩ :=
        isLitChar_spec d (h d (by simp))
      unfold applyQuant
      simp [n3, n4, n5]

theorem parseSeq_lits (cs : List Char) :
    ∀ f : Nat, (∀ c ∈ cs, isLitChar c = true) → cs.length < f →
      parseSeq f cs = some (cs.map RNode.lit, []) := by
  induction cs with
  | nil =>
      intro f _ hf
      match f, hf with
      | f + 1, _ => rfl
  | cons c cs ih =>
      intro f hlit hf
      match f, hf with
      | f + 1, hf =>
          have hc := hlit c (by simp)
          obtain ⟨_, _, _, _, _, _, n7, _, _, _, _, n12, _, _⟩ := isLitChar_spec c hc
          have htail : ∀ d ∈ cs, isLitChar d = true := fun d hd => hlit d (by simp [hd])
          have hlen : cs.length < f := by
            simp only [List.length_cons] at hf
            omega
          unfold parseSeq
          simp [n7, n12, parseAtom_lit f c cs hc,
            applyQuant_lit (RNode.lit c) cs htail, ih f htail hlen]

theorem compile_lits (pat : String) (h : ∀ c ∈ pat.data, isLitChar c = true) :
    compile pat = some (compileLit pat.data) := by
  have hseq := parseSeq_lits pat.data (2 * pat.data.length + 1) h (by omega)
  unfold compile
  have hstep : 2 * pat.data.length + 2 = (2 * pat.data.length + 1) + 1 := rfl
  rw [hstep]
  unfold parseDisj
  rw [hseq]
  rfl

theorem mem_insertTag (acc : List String) (t x : String) :
    x ∈ insertTag acc t ↔ x ∈ acc ∨ x = t := by
  by_cases h : t ∈ acc
  · simp only [insertTag, if_pos h]
    constructor
    · exact Or.inl
    · rintro (hx | rfl)
      · exact hx
      · exact h
  · simp [insertTag, if_neg h]

theorem nodup_insertTag (acc : List String) (t : String) (h : acc.Nodup) :
    (insertTag acc t).Nodup := by
  by_cases ht : t ∈ acc
  · simpa [insertTag, if_pos ht] using h
  · simp [insertTag, if_neg ht, List.nodup_append, h, ht]

theorem mem_foldl_insert (tags : List String) :
    ∀ (acc : List String) (x : String),
      x ∈ tags.foldl (fun a t => insertTag a (lowerStr t)) acc ↔
        x ∈ acc ∨ ∃ t ∈ tags, x = lowerStr t := by
  induction tags with
  | nil => intro acc x; simp
  | cons t ts ih =>
      intro acc x
      simp only [List.foldl_cons, ih, mem_insertTag, List.exists_mem_cons_iff, or_assoc]

theorem nodup_foldl_insert (tags : List String) :
    ∀ acc : List String, acc.Nodup →
      (tags.foldl (fun a t => insertTag a (lowerStr t)) acc).Nodup := by
  induction tags with
  | nil => intro acc h; simpa using h
  | cons t ts ih =>
      intro acc h
      exact ih _ (nodup_insertTag acc (lowerStr t) h)

theorem mem_enumAux (blogs : List Blog) :
    ∀ (acc : List String) (x : String),
      x ∈ blogs.foldl
          (fun acc2 b => b.data.tags.foldl (fun a t => insertTag a (lowerStr t)) acc2) acc ↔
        x ∈ acc ∨ ∃ b ∈ blogs, ∃ t ∈ b.data.tags, x = lowerStr t := by
  induction blogs with
  | nil => intro acc x; simp
  | cons b bs ih =>
      intro acc x
      simp only [List.foldl_cons, ih, mem_foldl_insert, List.exists_mem_cons_iff, or_assoc]

theorem mem_enumerateTags (blogs : List Blog) (x : String) :
    x ∈ enumerateTags blogs ↔ ∃ b ∈ blogs, ∃ t ∈ b.data.tags, x = lowerStr t := by
  unfold enumerateTags
  simp [mem_enumAux]

theorem nodup_enumAux (blogs : List Blog) :
    ∀ acc : List String, acc.Nodup →
      (blogs.foldl
        (fun acc2 b => b.data.tags.foldl (fun a t => insertTag a (lowerStr t)) acc2) acc).Nodup := by
  induction blogs with
  | nil => intro acc h; simpa using h
  | cons b bs ih =>
      intro acc h
      exact ih _ (nodup_foldl_insert b.data.tags acc h)

theorem nodup_enumerateTags (blogs : List Blog) : (enumerateTags blogs).Nodup := by
  unfold enumerateTags
  exact nodup_enumAux blogs [] (by simp)

theorem recordsForTag_eq_of_compile (prod : Bool) (blogs : List Blog) (tag : String)
    (re : RNode) (h : compile tag = some re) :
    recordsForTag prod blogs tag =
      some (sortByDate (blogs.filter (fun b => keepInMode prod b && blogMatches re b))) := by
  unfold recordsForTag
  rw [h]

theorem recordsForTag_none_case (prod : Bool) (blogs : List Blog) (tag : String)
    (h : compile tag = none) :
    recordsForTag prod blogs tag = none ∨ recordsForTag prod blogs tag = some [] := by
  unfold recordsForTag
  rw [h]
  by_cases hany : (blogs.any fun b => keepInMode prod b && !b.data.tags.isEmpty) = true
  · left
    simp [hany]
  · right
    simp [hany]

theorem mem_sortByDate (l : List Blog) (b : Blog) : b ∈ sortByDate l ↔ b ∈ l :=
  (List.perm_insertionSort byDateOrder l).mem_iff

theorem count_sortByDate (l : List Blog) (b : Blog) :
    (sortByDate l).count b = l.count b :=
  (List.perm_insertionSort byDateOrder l).count_eq b

theorem sortByDate_sorted (l : List Blog) :
    (sortByDate l).Pairwise (fun a b => b.data.publishedAt ≤ a.data.publishedAt) := by
  have h := List.sorted_insertionSort byDateOrder l
  refine h.imp ?_
  intro a b hab
  unfold byDateOrder byDate at hab
  omega

/-- C1 (counterexample): the substring-containment reading is not what the
code does for every query tag.  The query tag backslash-d is contained,
case-insensitively, in the tag of the non-draft record `blogSlashD`, yet
`recordsForTag` compiles the query as a regular expression, in which
backslash-d is a digit class matching nothing in that tag, so the result
is empty and the record is not included. -/
theorem c1_counterexample :
    containsCI "a\\dz" "\\d" = true ∧
      blogSlashD.data.draft = false ∧
      "a\\dz" ∈ blogSlashD.data.tags ∧
      recordsForTag true [blogSlashD] "\\d" = some [] ∧
      blogSlashD ∉ ([] : List Blog) := by
  decide

/-- C1 (amended): when every character of the query tag is a plain
literal (no regular-expression metacharacter), the compiled unanchored
case-insensitive regular expression implements substring matching: every
non-draft record one of whose tags contains the query tag as a
case-insensitive substring is included in the result of `recordsForTag`.
In particular a record tagged `Angular` is included for the query tag
`ang`. -/
theorem c1_loose_substring_match (prod : Bool) (blogs : List Blog) (tag : String)
    (hlit : ∀ c ∈ tag.data, isLitChar c = true) :
    ∃ l, recordsForTag prod blogs tag = some l ∧
      ∀ b ∈ blogs, b.data.draft = false →
        (∃ t ∈ b.data.tags, containsCI t tag = true) → b ∈ l := by
  have hc := compile_lits tag hlit
  refine ⟨_, recordsForTag_eq_of_compile prod blogs tag _ hc, ?_⟩
  intro b hb hdraft hex
  obtain ⟨t, ht, hct⟩ := hex
  rw [mem_sortByDate, List.mem_filter]
  refine ⟨hb, ?_⟩
  have hk : keepInMode prod b = true := by simp [keepInMode, hdraft]
  have hm : blogMatches (compileLit tag.data) b = true := by
    simp only [blogMatches, List.any_eq_true]
    exact ⟨t, ht, containsCI_rtest t tag hct⟩
  simp [hk, hm]

/-- C1 (witness): the record tagged `Angular` is included for the query
tag `ang`. -/
theorem c1_loose_substring_match_witness :
    (∀ c ∈ "ang".data, isLitChar c = true) ∧
      ∃ l, recordsForTag true [blogA] "ang" = some l ∧
        ∀ b ∈ [blogA], b.data.draft = false →
          (∃ t ∈ b.data.tags, containsCI t "ang" = true) → b ∈ l :=
  ⟨by decide, c1_loose_substring_match true [blogA] "ang" (by decide)⟩

/-- C2: `enumerateTags` returns exactly the lower-cased tags of all
records (drafts included), without duplicates, and returns the empty
set on the empty sequence. -/
theorem c2_enumerateTags_characterization :
    (∀ blogs : List Blog,
      (enumerateTags blogs).Nodup ∧
        ∀ x : String, x ∈ enumerateTags blogs ↔
          ∃ b ∈ blogs, ∃ t ∈ b.data.tags, x = lowerStr t) ∧
      enumerateTags [] = [] :=
  ⟨fun blogs => ⟨nodup_enumerateTags blogs, fun x => mem_enumerateTags blogs x⟩, rfl⟩

/-- C3: every record listed for a tag passes the mode guard (no draft
survives in production) and has a tag matched by the compiled query
expression; outside production, draft records with a matching tag are
included. -/
theorem c3_recordsForTag_mode_and_match (prod : Bool) (blogs : List Blog) (tag : String)
    (re : RNode) (l : List Blog) (hc : compile tag = some re)
    (hr : recordsForTag prod blogs tag = some l) :
    (∀ b ∈ l, (prod = true → b.data.draft = false) ∧
      ∃ t ∈ b.data.tags, rtest re t = true) ∧
      (prod = false → ∀ b ∈ blogs, b.data.draft = true →
        (∃ t ∈ b.data.tags, rtest re t = true) → b ∈ l) := by
  rw [recordsForTag_eq_of_compile prod blogs tag re hc] at hr
  have hl := (Option.some.inj hr).symm
  constructor
  · intro b hb
    rw [hl, mem_sortByDate, List.mem_filter] at hb
    have hcond := hb.2
    simp only [Bool.and_eq_true] at hcond
    constructor
    · intro hprod
      have := hcond.1
      simp [keepInMode, hprod] at this
      exact this
    · have := hcond.2
      simpa only [blogMatches, List.any_eq_true] using this
  · intro hprod b hb _ hex
    rw [hl, mem_sortByDate, List.mem_filter]
    refine ⟨hb, ?_⟩
    have hk : keepInMode prod b = true := by simp [keepInMode, hprod]
    have hm : blogMatches re b = true := by
      simpa only [blogMatches, List.any_eq_true] using hex
    simp [hk, hm]

/-- C3 (witness): the production listing for `angular` over the spec
scenario obeys the mode guard and the match condition. -/
theorem c3_recordsForTag_mode_and_match_witness :
    (compile "angular" = some (compileLit "angular".data)) ∧
      (recordsForTag true scenarioBlogs "angular" = some [blogB, blogA]) ∧
      ((∀ b ∈ [blogB, blogA], (true = true → b.data.draft = false) ∧
        ∃ t ∈ b.data.tags, rtest (compileLit "angular".data) t = true) ∧
        (true = false → ∀ b ∈ scenarioBlogs, b.data.draft = true →
          (∃ t ∈ b.data.tags, rtest (compileLit "angular".data) t = true) →
            b ∈ [blogB, blogA])) :=
  ⟨by decide, by decide,
    c3_recordsForTag_mode_and_match true scenarioBlogs "angular" _ _ (by decide) (by decide)⟩

/-- C4: every listing produced by `recordsForTag` is sorted in descending
order of `publishedAt`: each element's date is at least its successor's. -/
theorem c4_recordsForTag_sorted (prod : Bool) (blogs : List Blog) (tag : String)
    (l : List Blog) (hr : recordsForTag prod blogs tag = some l) :
    l.Chain' (fun a b => b.data.publishedAt ≤ a.data.publishedAt) := by
  cases hcomp : compile tag with
  | some re =>
      rw [recordsForTag_eq_of_compile prod blogs tag re hcomp] at hr
      have hl := (Option.some.inj hr).symm
      rw [hl]
      exact (sortByDate_sorted _).chain'
  | none =>
      rcases recordsForTag_none_case prod blogs tag hcomp with hn | hs
      · rw [hr] at hn
        simp at hn
      · rw [hr] at hs
        have hl : l = [] := Option.some.inj hs
        rw [hl]
        simp

/-- C4 (witness): the production listing for `angular` over the spec
scenario is date-descending. -/
theorem c4_recordsForTag_sorted_witness :
    (recordsForTag true scenarioBlogs "angular" = some [blogB, blogA]) ∧
      List.Chain' (fun a b => b.data.publishedAt ≤ a.data.publishedAt) [blogB, blogA] :=
  ⟨by decide, c4_recordsForTag_sorted true scenarioBlogs "angular" [blogB, blogA] (by decide)⟩

/-- C5: tag enumeration does not exclude drafts: every tag of a draft
record appears, lower-cased, in `enumerateTags`; and a tag carried only
by a draft record is enumerated while its production listing is empty. -/
theorem c5_draft_tags_enumerated :
    (∀ (blogs : List Blog) (b : Blog), b ∈ blogs → b.data.draft = true →
        ∀ t ∈ b.data.tags, lowerStr t ∈ enumerateTags blogs) ∧
      enumerateTags [blogDraftOnly] = ["draftish"] ∧
      recordsForTag true [blogDraftOnly] "draftish" = some [] := by
  refine ⟨?_, by decide, by decide⟩
  intro blogs b hb _ t ht
  rw [mem_enumerateTags]
  exact ⟨b, hb, t, ht, rfl⟩

/-- C5 (witness): the draft record `C` of the spec scenario has its tag
`Angular` enumerated, lower-cased. -/
theorem c5_draft_tags_enumerated_witness :
    lowerStr "Angular" ∈ enumerateTags scenarioBlogs :=
  c5_draft_tags_enumerated.1 scenarioBlogs blogC (by decide) (by decide) "Angular" (by decide)

/-- C6 (counterexample): `recordsForTag` is not total over all query tag
strings: the query tag `c++` is not a valid regular-expression pattern
(nothing to repeat), so `new RegExp` raises and the operation produces no
result even though a non-draft record carries that exact tag. -/
theorem c6_counterexample :
    blogCpp.data.draft = false ∧
      "c++" ∈ blogCpp.data.tags ∧
      recordsForTag true [blogCpp] "c++" = none := by
  decide

/-- C6 (amended): `recordsForTag` returns a result for every record
sequence and every query tag whose pattern compiles as a regular
expression; failure is reachable only for query tags that are invalid
patterns. -/
theorem c6_total_on_valid_patterns (prod : Bool) (blogs : List Blog) (tag : String)
    (re : RNode) (hc : compile tag = some re) :
    ∃ l, recordsForTag prod blogs tag = some l :=
  ⟨_, recordsForTag_eq_of_compile prod blogs tag re hc⟩

/-- C6 (witness): the valid query tag `angular` always yields a result. -/
theorem c6_total_on_valid_patterns_witness :
    (compile "angular" = some (compileLit "angular".data)) ∧
      ∃ l, recordsForTag true scenarioBlogs "angular" = some l :=
  ⟨by decide,
    c6_total_on_valid_patterns true scenarioBlogs "angular" (compileLit "angular".data) (by decide)⟩

/-- C7: on the spec's concrete scenario, the enumerated tags are
`angular` and `react`, and the production listing for `angular` is
`[B, A]` (draft `C` excluded, `B` first by descending date). -/
theorem c7_scenario :
    enumerateTags scenarioBlogs = ["angular", "react"] ∧
      recordsForTag true scenarioBlogs "angular" = some [blogB, blogA] := by
  decide

/-- C8 (counterexample): the RSS route does not sort: two non-draft
records stored oldest-first are emitted oldest-first, so the item list is
not ordered descending by `publishedAt`. -/
theorem c8_counterexample :
    (∀ b ∈ [blogOld, blogNew], b.data.draft = false) ∧
      (feedItems "https://nartc.me" [blogOld, blogNew]).map RssItem.pubDate = [100, 200] ∧
      ¬ List.Chain' (fun i j => j.pubDate ≤ i.pubDate)
        (feedItems "https://nartc.me" [blogOld, blogNew]) := by
  refine ⟨by decide, by decide, ?_⟩
  intro h
  rw [show feedItems "https://nartc.me" [blogOld, blogNew] =
      [toRssItem "https://nartc.me" blogOld, toRssItem "https://nartc.me" blogNew] from
    by decide] at h
  rw [List.chain'_cons] at h
  have hle := h.1
  simp [toRssItem, blogOld, blogNew] at hle

/-- C8 (amended): the feed's item list is exactly the non-draft records,
kept in the collection's original order (the filter preserves relative
order; no sort is applied), mapped to feed items. -/
theorem c8_feed_items_filter_order (origin : String) (blogs : List Blog) :
    ∃ kept : List Blog,
      kept.Sublist blogs ∧
      (∀ b ∈ kept, b.data.draft = false) ∧
      (∀ b ∈ blogs, b.data.draft = false → b ∈ kept) ∧
      feedItems origin blogs = kept.map (toRssItem origin) := by
  refine ⟨blogs.filter (fun b => !b.data.draft), List.filter_sublist blogs, ?_, ?_, rfl⟩
  · intro b hb
    have := (List.mem_filter.1 hb).2
    simpa using this
  · intro b hb hd
    exact List.mem_filter.2 ⟨hb, by simp [hd]⟩

/-- C8 (witness): the two-record feed input yields its non-draft records
in original order. -/
theorem c8_feed_items_filter_order_witness :
    ∃ kept : List Blog,
      kept.Sublist [blogOld, blogNew] ∧
      (∀ b ∈ kept, b.data.draft = false) ∧
      (∀ b ∈ [blogOld, blogNew], b.data.draft = false → b ∈ kept) ∧
      feedItems "https://nartc.me" [blogOld, blogNew] = kept.map (toRssItem "https://nartc.me") :=
  c8_feed_items_filter_order "https://nartc.me" [blogOld, blogNew]

/-- C9: both operations are deterministic: two calls on the same input
yield equal results (the embedding is a pure function of its inputs, so
no call can modify the records). -/
theorem c9_deterministic (prod : Bool) (blogs : List Blog) (tag : String) :
    enumerateTags blogs = enumerateTags blogs ∧
      recordsForTag prod blogs tag = recordsForTag prod blogs tag :=
  ⟨rfl, rfl⟩

/-- C10: every listing is a sub-multiset of the input: each listed record
is an input record, unmodified, and occurs no more often than in the
input. -/
theorem c10_sub_multiset (prod : Bool) (blogs : List Blog) (tag : String)
    (l : List Blog) (hr : recordsForTag prod blogs tag = some l) :
    (∀ b ∈ l, b ∈ blogs) ∧ ∀ b : Blog, l.count b ≤ blogs.count b := by
  cases hcomp : compile tag with
  | some re =>
      rw [recordsForTag_eq_of_compile prod blogs tag re hcomp] at hr
      have hl := (Option.some.inj hr).symm
      constructor
      · intro b hb
        rw [hl, mem_sortByDate, List.mem_filter] at hb
        exact hb.1
      · intro b
        rw [hl, count_sortByDate]
        exact (List.filter_sublist blogs).count_le b
  | none =>
      rcases recordsForTag_none_case prod blogs tag hcomp with hn | hs
      · rw [hr] at hn
        simp at hn
      · rw [hr] at hs
        have hl : l = [] := Option.some.inj hs
        rw [hl]
        simp

/-- C10 (witness): the production listing for `angular` over the spec
scenario is a sub-multiset of the scenario records. -/
theorem c10_sub_multiset_witness :
    (recordsForTag true scenarioBlogs "angular" = some [blogB, blogA]) ∧
      ((∀ b ∈ [blogB, blogA], b ∈ scenarioBlogs) ∧
        ∀ b : Blog, ([blogB, blogA] : List Blog).count b ≤ scenarioBlogs.count b) :=
  ⟨by decide, c10_sub_multiset true scenarioBlogs "angular" [blogB, blogA] (by decide)⟩
